import Mathlib

/-!
TaskManager: a shallow embedding of `task_manager/cmd/main.go`.

The Go program keeps a `TaskList` (a slice of `Task` and a counter `NextId`) inside a
`TaskListManager`, which also holds the handles for standard input, standard output and the
name of the task file.  The embedding below turns every method into a function on an explicit
state:

* Go strings are lists of characters (`Str`);
* the `Reader` field is the not yet consumed content of standard input;
* the `Writer` field is the list of lines flushed to standard output so far;
* the file named `FileName` is the field `File` (`none` when the file does not exist);
* a run-time panic and `os.Exit` are outcomes of their own (`Outcome`).

The functions of the Go standard library the program calls (`strings.TrimSpace`,
`strings.Split`, `fmt.Sprintf("%d")`, `strconv.Atoi`, `strconv.ParseBool`, `time.Parse`,
`Time.Format`, `bufio.Scanner`, `Reader.ReadString`) are modelled from their documented
behaviour, each next to a comment that says what was taken from the library source.
-/

namespace TaskManager

/-- Go `string`, as the list of its characters (the text is taken to be valid UTF-8). -/
abbrev Str := List Char

/-! ## Standard library: `fmt`, `strconv`, `strings`, `bufio`, `time` -/

/-- The decimal digit for a value below ten (values from ten on do not occur). -/
def digitChar : Nat → Char
  | 0 => '0'
  | 1 => '1'
  | 2 => '2'
  | 3 => '3'
  | 4 => '4'
  | 5 => '5'
  | 6 => '6'
  | 7 => '7'
  | 8 => '8'
  | _ => '9'

/-- Decimal digits of `n` in front of `acc`, most significant first; `fuel` bounds the number
of digits produced and `n + 1` is always enough. -/
def natDigitsAux : Nat → Nat → Str → Str
  | 0, _, acc => acc
  | fuel + 1, n, acc =>
    if n < 10 then digitChar n :: acc
    else natDigitsAux fuel (n / 10) (digitChar (n % 10) :: acc)

/-- Decimal rendering of a natural number, `"0"` for zero, no leading zeros otherwise. -/
def fmtNat (n : Nat) : Str := natDigitsAux (n + 1) n []

/-- Go `fmt.Sprintf("%d", x)` for a Go `int`: a minus sign for negative values, then the decimal
digits of the absolute value. -/
def Sprintf_d (x : Int) : Str :=
  if x < 0 then '-' :: fmtNat x.natAbs else fmtNat x.natAbs

/-- Go `fmt`'s verb `%t`: the word `true` or `false`. -/
def Sprintf_t (b : Bool) : Str :=
  if b then ['t', 'r', 'u', 'e'] else ['f', 'a', 'l', 's', 'e']

/-- Go `unicode.IsSpace`: the Latin-1 spaces `\t \n \v \f \r`, space, U+0085, U+00A0, and the
characters of category Z and property Pattern_White_Space. -/
def isSpace (c : Char) : Bool :=
  let n := c.toNat
  (9 ≤ n && n ≤ 13) || n == 32 || n == 0x85 || n == 0xA0 || n == 0x1680 ||
  (0x2000 ≤ n && n ≤ 0x200A) || n == 0x2028 || n == 0x2029 || n == 0x202F ||
  n == 0x205F || n == 0x3000

/-- Go `strings.TrimSpace`: the string without its leading and trailing white space. -/
def TrimSpace (s : Str) : Str :=
  ((s.dropWhile isSpace).reverse.dropWhile isSpace).reverse

/-- Go `strings.Split(s, sep)` for a one-character separator: the pieces of `s` between the
occurrences of `sep`; a string without `sep` (the empty string too) is its own single piece. -/
def Split : Str → Char → List Str
  | [], _ => [[]]
  | c :: cs, sep =>
    if c = sep then [] :: Split cs sep
    else
      match Split cs sep with
      | [] => [[c]]
      | f :: fs => (c :: f) :: fs

/-- Go `Reader.ReadString('\n')`: what is read up to and including the first newline (the whole
rest at end of input, where the error is dropped by the callers), and what stays unread. -/
def ReadString : Str → Str × Str
  | [] => ([], [])
  | c :: cs =>
    if c = '\n' then ([c], cs)
    else ((c :: (ReadString cs).1), (ReadString cs).2)

/-- The errors the program prints with `fmt.Fprintln(Writer, err)`, named by the call that
returned them and the text that call rejected; the wording of the message is not modelled. -/
inductive GoError
  | openFile (name : Str)
  | atoi (s : Str)
  | parseBool (s : Str)
  | timeParse (value : Str)
deriving DecidableEq

/-- Value of a decimal digit, `none` for any other character. -/
def digitVal (c : Char) : Option Nat :=
  if 48 ≤ c.toNat ∧ c.toNat ≤ 57 then some (c.toNat - 48) else none

/-- The number written by a string of decimal digits, continuing from `acc`; `none` as soon as
a character is not a digit. -/
def parseDigits : Str → Nat → Option Nat
  | [], acc => some acc
  | c :: cs, acc =>
    match digitVal c with
    | none => none
    | some d => parseDigits cs (10 * acc + d)

/-- Go `strconv.Atoi` on a 64-bit platform: an optional sign `+` or `-`, then at least one decimal
digit and nothing else, the value within `-2^63 .. 2^63 - 1`; otherwise a `*NumError`. -/
def Atoi (s : Str) : Except GoError Int :=
  let body : Str :=
    match s with
    | '-' :: r => r
    | '+' :: r => r
    | _ => s
  if body = [] then .error (.atoi s)
  else
    match parseDigits body 0 with
    | none => .error (.atoi s)
    | some n =>
      if s.head? = some '-' then
        if n ≤ 2 ^ 63 then .ok (-(n : Int)) else .error (.atoi s)
      else
        if n < 2 ^ 63 then .ok (n : Int) else .error (.atoi s)

/-- Go `strconv.ParseBool`: accepts exactly `1 t T TRUE true True` and `0 f F FALSE false False`. -/
def ParseBool (s : Str) : Except GoError Bool :=
  if s = ['1'] ∨ s = ['t'] ∨ s = ['T'] ∨ s = ['T', 'R', 'U', 'E'] ∨ s = ['t', 'r', 'u', 'e'] ∨
      s = ['T', 'r', 'u', 'e'] then .ok true
  else if s = ['0'] ∨ s = ['f'] ∨ s = ['F'] ∨ s = ['F', 'A', 'L', 'S', 'E'] ∨
      s = ['f', 'a', 'l', 's', 'e'] ∨ s = ['F', 'a', 'l', 's', 'e'] then .ok false
  else .error (.parseBool s)

/-- Go `time.Time`, seen through the calendar fields `Format` prints: year, month, day, hour,
minute and second (nanoseconds and the location never reach the output of the program). -/
structure Time where
  year : Int
  month : Nat
  day : Nat
  hour : Nat
  minute : Nat
  second : Nat
deriving DecidableEq

/-- Go `appendInt` of package `time`: a minus sign for a negative `x`, then the decimal digits of
its absolute value, padded with zeros on the left up to `width` digits. -/
def appendInt (x : Int) (width : Nat) : Str :=
  (if x < 0 then ['-'] else []) ++
    (List.replicate (width - (fmtNat x.natAbs).length) '0' ++ fmtNat x.natAbs)

/-- Go `t.Format("2006-01-02 15:04:05")`: the year on four digits, then month, day, hour, minute
and second on two digits each, separated by `-`, `-`, a space, `:` and `:`. -/
def Format (t : Time) : Str :=
  appendInt t.year 4 ++ '-' :: (appendInt t.month 2 ++ '-' :: (appendInt t.day 2 ++
    ' ' :: (appendInt t.hour 2 ++ ':' :: (appendInt t.minute 2 ++ ':' :: appendInt t.second 2))))

/-- Go `time.Parse("", value)`, the call `ReadTasks` makes.  The empty layout has no element of the
reference time, so the parser only checks that nothing of `value` is left over (`extra text`
otherwise), and every omitted element takes its default: January 1 of year 0, 00:00:00 UTC. -/
def Parse_emptyLayout (value : Str) : Except GoError Time :=
  if value = [] then .ok ⟨0, 1, 1, 0, 0, 0⟩ else .error (.timeParse value)

/-- The lines of a text as `bufio.ScanLines` cuts them: each newline ends a line, and what
follows the last newline is a line only when it is not empty. -/
def rawLines : Str → List Str
  | [] => []
  | c :: cs =>
    if c = '\n' then [] :: rawLines cs
    else
      match rawLines cs with
      | [] => [[c]]
      | l :: ls => (c :: l) :: ls

/-- Go `dropCR` of package `bufio`: a line without its one trailing carriage return. -/
def dropCR (l : Str) : Str :=
  if l.getLast? = some '\r' then l.dropLast else l

/-- Go `len(s)`: the number of bytes of the UTF-8 encoding of the string. -/
def byteLen (s : Str) : Nat := (s.map Char.utf8Size).sum

/-- Go `bufio.MaxScanTokenSize`, the size of the largest buffer a `Scanner` allocates. -/
def MaxScanTokenSize : Nat := 64 * 1024

/-- The tokens `scanner.Scan()` / `scanner.Text()` give on a file read to its end, with the
default split function `ScanLines`.  A line that does not fit in the buffer together with its
newline makes `Scan` return false (`ErrTooLong`, which `ReadTasks` never looks at), so the
lines from the first such on are not seen. -/
def scanLines (content : Str) : List Str :=
  ((rawLines content).takeWhile (fun l => decide (byteLen l < MaxScanTokenSize))).map dropCR

/-- Go `int` arithmetic on a 64-bit platform: the result wraps around into `-2^63 .. 2^63 - 1`. -/
def wrapInt (z : Int) : Int := (z + 2 ^ 63) % 2 ^ 64 - 2 ^ 63

/-! ## Data model -/

/-- Go `Task`. -/
structure Task where
  Id : Int
  Description : Str
  Completed : Bool
  Date : Time
deriving DecidableEq

/-- Go `TaskList`. -/
structure TaskList where
  Tasks : List Task
  NextId : Int
deriving DecidableEq

/-- What was written to standard output by one `Fprintln`/`Fprintf` and flushed: a line of
text, or an error value. -/
inductive Out
  | text (s : Str)
  | error (e : GoError)
deriving DecidableEq

/-- Go `TaskListManager` together with the part of the outside world its methods touch.
`Reader` is the content of standard input not read yet, `Writer` what has been flushed to
standard output, `File` the content of the file `FileName` (`none`: no such file).  The
`Scanner` of the Go structure is only used by `main` for the command word, which `main_step`
takes as an argument. -/
structure TaskListManager where
  TaskList : TaskList
  FileName : Str
  Reader : Str
  Writer : List Out
  File : Option Str
deriving DecidableEq

/-- How a call ends: it returns, it ends the process with `os.Exit(0)`, or the run time stops
the process with `index out of range [index] with length length`. -/
inductive Outcome
  | returned (m : TaskListManager)
  | exited (m : TaskListManager)
  | panicked (index length : Nat)
deriving DecidableEq

/-- Go `fmt.Fprintln(taskListManager.Writer, s)` followed by `Flush()`. -/
def println (m : TaskListManager) (s : Str) : TaskListManager :=
  { m with Writer := m.Writer ++ [Out.text s] }

/-- Go `fmt.Fprintln(taskListManager.Writer, err)` followed by `Flush()`. -/
def printErr (m : TaskListManager) (e : GoError) : TaskListManager :=
  { m with Writer := m.Writer ++ [Out.error e] }

def promptCommand : Str := "Enter a command:".toList
def promptId : Str := "Enter the id of the task:".toList
def promptDescription : Str := "Enter the new description of the task:".toList
def msgNotFound : Str := "The task with the specified id was not found".toList
def msgInvalid : Str := "Invalid command".toList
def msgEmpty : Str := "The task list is empty".toList
def msgGoodbye : Str := "Goodbye!".toList
def msgHeader : Str := "Id\tDescription\tCompleted\tDate".toList

/-! ## The methods of `TaskListManager` -/

/-- Go `NewTaskListManager(fileName)`: no task, `NextId` 1.  The standard input the process will
receive and the state of the task file are the two further arguments. -/
def NewTaskListManager (fileName : Str) (stdin : Str) (file : Option Str) : TaskListManager :=
  { TaskList := { Tasks := [], NextId := 1 }
    FileName := fileName
    Reader := stdin
    Writer := []
    File := file }

/-- The row `ListTasks` prints for a task (`"%d\t%s\t%t\t%s\n"`). -/
def listRow (t : Task) : Str :=
  Sprintf_d t.Id ++ '\t' :: (t.Description ++ '\t' :: (Sprintf_t t.Completed ++ '\t' :: Format t.Date))

/-- Go `ListTasks`. -/
def ListTasks (m : TaskListManager) : TaskListManager :=
  if m.TaskList.Tasks.length = 0 then println m msgEmpty
  else
    { m with Writer := m.Writer ++ Out.text msgHeader :: m.TaskList.Tasks.map (fun t => Out.text (listRow t)) }

/-- The loop `for index, task := range Tasks { if fmt.Sprintf("%d", task.Id) == id {...; return} }`
shared by `DoTask`, `RemoveTask` and `UpdateTask`: the index at which the body runs, that of
the first task whose printed id equals `id`, or `none` when the loop runs to its end. -/
def matchIndex (id : Str) : List Task → Option Nat
  | [] => none
  | t :: ts => if Sprintf_d t.Id = id then some 0 else (matchIndex id ts).map (· + 1)

/-- The assignment `Tasks[index].field = value`: `f` applied to the task at `index`. -/
def modifyAt (f : Task → Task) : List Task → Nat → List Task
  | [], _ => []
  | t :: ts, 0 => f t :: ts
  | t :: ts, i + 1 => t :: modifyAt f ts i

/-- Go `DoTask`. -/
def DoTask (m : TaskListManager) : TaskListManager :=
  let m1 := println m promptId
  let id := TrimSpace (ReadString m1.Reader).1
  let m2 := { m1 with Reader := (ReadString m1.Reader).2 }
  match matchIndex id m2.TaskList.Tasks with
  | some index =>
    { m2 with TaskList := { m2.TaskList with
        Tasks := modifyAt (fun t => { t with Completed := true }) m2.TaskList.Tasks index } }
  | none => println m2 msgNotFound

/-- Go `RemoveTask`; `append(Tasks[:index], Tasks[index+1:]...)` is the slice without the task at
`index`. -/
def RemoveTask (m : TaskListManager) : TaskListManager :=
  let m1 := println m promptId
  let id := TrimSpace (ReadString m1.Reader).1
  let m2 := { m1 with Reader := (ReadString m1.Reader).2 }
  match matchIndex id m2.TaskList.Tasks with
  | some index =>
    { m2 with TaskList := { m2.TaskList with
        Tasks := m2.TaskList.Tasks.take index ++ m2.TaskList.Tasks.drop (index + 1) } }
  | none => println m2 msgNotFound

/-- Go `UpdateTask`; the description is asked for, and read, only once a task has matched. -/
def UpdateTask (m : TaskListManager) : TaskListManager :=
  let m1 := println m promptId
  let id := TrimSpace (ReadString m1.Reader).1
  let m2 := { m1 with Reader := (ReadString m1.Reader).2 }
  match matchIndex id m2.TaskList.Tasks with
  | some index =>
    let m3 := println m2 promptDescription
    let description := TrimSpace (ReadString m3.Reader).1
    let m4 := { m3 with Reader := (ReadString m3.Reader).2 }
    { m4 with TaskList := { m4.TaskList with
        Tasks := modifyAt (fun t => { t with Description := description }) m4.TaskList.Tasks index } }
  | none => println m2 msgNotFound

/-- The line `SaveTasks` writes for a task (`"%d|%s|%t|%s\n"`), without its newline. -/
def saveLine (t : Task) : Str :=
  Sprintf_d t.Id ++ '|' :: (t.Description ++ '|' :: (Sprintf_t t.Completed ++ '|' :: Format t.Date))

/-- The text `SaveTasks` writes: the line of each task, in the order of `Tasks`, each followed
by a newline. -/
def saveText : List Task → Str
  | [] => []
  | t :: ts => saveLine t ++ '\n' :: saveText ts

/-- Go `SaveTasks`, when `os.Create` and the writes succeed (whether they do is decided by the
operating system): the file is replaced by the text of the tasks. -/
def SaveTasks (m : TaskListManager) : TaskListManager :=
  { m with File := some (saveText m.TaskList.Tasks) }

/-- The loop `for scanner.Scan() {...}` of `ReadTasks` on the lines still to scan.
`fields[1]`, `fields[2]` and `fields[3]` are read before anything is parsed, so a line with
fewer than four fields stops the process; fields after the fourth are never looked at. -/
def readLoop : List Str → TaskListManager → Outcome
  | [], m => .returned m
  | line :: rest, m =>
    match Split line '|' with
    | [] => .panicked 0 0
    | [_] => .panicked 1 1
    | [_, _] => .panicked 2 2
    | [_, _, _] => .panicked 3 3
    | id :: description :: completed :: date :: _ =>
      match Atoi id with
      | .error e => .returned (printErr m e)
      | .ok n =>
        match ParseBool completed with
        | .error e => .returned (printErr m e)
        | .ok b =>
          match Parse_emptyLayout date with
          | .error e => .returned (printErr m e)
          | .ok d =>
            readLoop rest { m with TaskList :=
              { Tasks := m.TaskList.Tasks ++ [{ Id := n, Description := description, Completed := b, Date := d }]
                NextId := wrapInt (m.TaskList.NextId + 1) } }

/-- Go `ReadTasks`: when the file cannot be opened the error is printed and nothing else changes;
otherwise the store is emptied, `NextId` set to 1, and the lines are read by `readLoop`. -/
def ReadTasks (m : TaskListManager) : Outcome :=
  match m.File with
  | none => .returned (printErr m (.openFile m.FileName))
  | some content =>
    readLoop (scanLines content) { m with TaskList := { Tasks := [], NextId := 1 } }

/-- Go `Help`: the eight lines of the help menu. -/
def Help (m : TaskListManager) : TaskListManager :=
  { m with Writer := m.Writer ++
      [ Out.text "The following commands are available:".toList,
        Out.text "add: add a new task to the list".toList,
        Out.text "list: show the list of tasks".toList,
        Out.text "do: mark a task as completed".toList,
        Out.text "rm: remove a task from the list".toList,
        Out.text "update: update the description of a task".toList,
        Out.text "help: show the help menu".toList,
        Out.text "exit: exit the program".toList ] }

/-- One turn of the loop of `main`: the prompt, then the `switch` on the command word the
`Scanner` has read.  There is no `case "add"`. -/
def main_step (m : TaskListManager) (command : Str) : Outcome :=
  let m1 := println m promptCommand
  if command = "list".toList then .returned (ListTasks m1)
  else if command = "do".toList then .returned (DoTask m1)
  else if command = "rm".toList then .returned (RemoveTask m1)
  else if command = "update".toList then .returned (UpdateTask m1)
  else if command = "help".toList then .returned (Help m1)
  else if command = "exit".toList then .exited (println m1 msgGoodbye)
  else .returned (println m1 msgInvalid)

/-! ## Vocabulary of the statements -/

/-- What a call wrote: the part of `after.Writer` that comes after the lines of
`before.Writer`. -/
def written (before after : TaskListManager) : List Out :=
  after.Writer.drop before.Writer.length

/-- The two tasks of the scenario of the specification, before any is completed. -/
def scenarioTasks : List Task :=
  [ { Id := 1, Description := "Buy milk".toList, Completed := false, Date := ⟨2024, 1, 15, 10, 30, 0⟩ },
    { Id := 2, Description := "Pay rent".toList, Completed := false, Date := ⟨2024, 1, 15, 10, 31, 7⟩ } ]

/-- A manager holding the two tasks of the scenario, with `stdin` still to be read and
`file` as the state of the task file. -/
def scenario (stdin : Str) (file : Option Str) : TaskListManager :=
  { TaskList := { Tasks := scenarioTasks, NextId := 3 }
    FileName := "tasks.json".toList
    Reader := stdin
    Writer := []
    File := file }

/-- A file the operating system can hold: its size stays below the largest `int64` offset. -/
def smallFile (content : Str) : Prop := content.length < 2 ^ 63 - 1

instance (content : Str) : Decidable (smallFile content) := by
  unfold smallFile; infer_instance

/-- The managers the program can be in: the one `NewTaskListManager` builds, and those that
`DoTask`, `UpdateTask`, `RemoveTask`, `SaveTasks`, `ListTasks` and a returning `ReadTasks` make
of a reachable one, whatever is typed on standard input (`stdin`) and whatever the task file
holds at the time of the load (`file`, with content satisfying `fileOk` when it exists). -/
inductive Reachable (fileOk : Str → Prop) : TaskListManager → Prop
  | init (fileName stdin : Str) (file : Option Str) :
      Reachable fileOk (NewTaskListManager fileName stdin file)
  | complete {m : TaskListManager} (stdin : Str) :
      Reachable fileOk m → Reachable fileOk (DoTask { m with Reader := stdin })
  | update {m : TaskListManager} (stdin : Str) :
      Reachable fileOk m → Reachable fileOk (UpdateTask { m with Reader := stdin })
  | remove {m : TaskListManager} (stdin : Str) :
      Reachable fileOk m → Reachable fileOk (RemoveTask { m with Reader := stdin })
  | save {m : TaskListManager} :
      Reachable fileOk m → Reachable fileOk (SaveTasks m)
  | list {m : TaskListManager} :
      Reachable fileOk m → Reachable fileOk (ListTasks m)
  | load {m m' : TaskListManager} (file : Option Str) :
      Reachable fileOk m → (∀ c, file = some c → fileOk c) →
      ReadTasks { m with File := file } = Outcome.returned m' → Reachable fileOk m'

/-- Whether each of the lines carries an id that is at most the counter its turn in the loop
of `ReadTasks` finds: `counter` for the first line, one more for each further line.  A line
whose first field is not an integer carries no id. -/
def idsWithin : List Str → Int → Bool
  | [], _ => true
  | line :: rest, counter =>
    (match Atoi ((Split line '|').headD []) with
      | .ok n => decide (n ≤ counter)
      | .error _ => true) && idsWithin rest (counter + 1)

/-- A file `ReadTasks` can count: it satisfies `smallFile`, and the id of each of its lines is
at most the value `NextId` has when the line is read (the first line an id of at most 1, the
second of at most 2, and so on). -/
def idsFollowCounter (content : Str) : Prop :=
  smallFile content ∧ idsWithin (scanLines content) 1 = true

instance (content : Str) : Decidable (idsFollowCounter content) := by
  unfold idsFollowCounter; infer_instance

/-- The date `time.Parse("", "")` returns, the only one `ReadTasks` can give a task. -/
def yearZero : Time := ⟨0, 1, 1, 0, 0, 0⟩

/-- A fresh manager whose task file holds `content`. -/
def withFile (content : Str) : TaskListManager :=
  NewTaskListManager "tasks.json".toList [] (some content)

/-- The manager `ReadTasks` leaves after a file with the single line `5|Pay rent|true|`. -/
def loadedFive : TaskListManager :=
  { withFile "5|Pay rent|true|\n".toList with
    TaskList :=
      { Tasks := [{ Id := 5, Description := "Pay rent".toList, Completed := true, Date := yearZero }]
        NextId := 2 } }

/-- The manager `ReadTasks` leaves after a file with two lines that both carry the id 1. -/
def loadedTwins : TaskListManager :=
  { withFile "1|Buy milk|false|\n1|Pay rent|false|\n".toList with
    TaskList :=
      { Tasks :=
          [ { Id := 1, Description := "Buy milk".toList, Completed := false, Date := yearZero },
            { Id := 1, Description := "Pay rent".toList, Completed := false, Date := yearZero } ]
        NextId := 3 } }

/-- Whether `s` is written `YYYY-MM-DD HH:MM:SS`: nineteen characters, a decimal digit at
each place the pattern has a `d`, and the separator of the pattern everywhere else. -/
def isTimestamp (s : Str) : Bool :=
  s.length == 19 &&
    (List.zipWith (fun c p => if p = 'd' then decide (48 ≤ c.toNat ∧ c.toNat ≤ 57) else c == p)
      s "dddd-dd-dd dd:dd:dd".toList).all id

/-- The manager `ReadTasks` leaves after a file with the two lines `1|Buy milk|false|` and
`2|Pay rent|false|`. -/
def loadedPair : TaskListManager :=
  { withFile "1|Buy milk|false|\n2|Pay rent|false|\n".toList with
    TaskList :=
      { Tasks :=
          [ { Id := 1, Description := "Buy milk".toList, Completed := false, Date := yearZero },
            { Id := 2, Description := "Pay rent".toList, Completed := false, Date := yearZero } ]
        NextId := 3 } }

/-- The manager `ReadTasks` leaves after a file with the single line `1|Buy milk|false|`. -/
def loadedOne : TaskListManager :=
  { withFile "1|Buy milk|false|\n".toList with
    TaskList :=
      { Tasks := [{ Id := 1, Description := "Buy milk".toList, Completed := false, Date := yearZero }]
        NextId := 2 } }

/-! ## Decimal digits: `fmt.Sprintf("%d")` and `strconv.Atoi` -/

theorem digitVal_digitChar (d : Nat) (h : d < 10) : digitVal (digitChar d) = some d := by
  interval_cases d <;> rfl

theorem digitChar_isDigit (d : Nat) : 48 ≤ (digitChar d).toNat ∧ (digitChar d).toNat ≤ 57 := by
  unfold digitChar
  split <;> decide

theorem natDigitsAux_eq (fuel : Nat) : ∀ (n : Nat) (acc : Str), n < fuel →
    natDigitsAux fuel n acc =
      (if n = 0 then ['0'] else ((Nat.digits 10 n).reverse.map digitChar)) ++ acc := by
  induction fuel with
  | zero => intro n acc h; omega
  | succ fuel ih =>
    intro n acc h
    unfold natDigitsAux
    by_cases h10 : n < 10
    · simp only [h10, if_true]
      by_cases h0 : n = 0
      · subst h0; rfl
      · simp [h0, Nat.digits_of_lt 10 n h0 h10]
    · simp only [h10, if_false]
      have hpos : 0 < n := by omega
      have hdiv : n / 10 < fuel := by omega
      have hne : n / 10 ≠ 0 := by omega
      have hn0 : n ≠ 0 := by omega
      rw [ih (n / 10) _ hdiv]
      rw [if_neg hne, if_neg hn0]
      conv_rhs => rw [Nat.digits_def' (by norm_num : 1 < 10) hpos]
      simp

theorem fmtNat_eq (n : Nat) :
    fmtNat n = if n = 0 then ['0'] else ((Nat.digits 10 n).reverse.map digitChar) := by
  unfold fmtNat
  rw [natDigitsAux_eq (n + 1) n [] (Nat.lt_succ_self n)]
  simp

theorem parseDigits_snoc (xs : Str) (c : Char) : ∀ v : Nat,
    parseDigits (xs ++ [c]) v =
      (parseDigits xs v).bind (fun w => (digitVal c).map (fun d => 10 * w + d)) := by
  induction xs with
  | nil =>
    intro v
    simp only [List.nil_append, parseDigits, Option.some_bind]
    cases digitVal c <;> rfl
  | cons x xs ih =>
    intro v
    simp only [List.cons_append, parseDigits]
    cases digitVal x with
    | none => rfl
    | some d => exact ih _

theorem parseDigits_digits (l : List Nat) (h : ∀ d ∈ l, d < 10) :
    parseDigits (l.reverse.map digitChar) 0 = some (Nat.ofDigits 10 l) := by
  induction l with
  | nil => rfl
  | cons d l ih =>
    have hd : d < 10 := h d (List.mem_cons_self d l)
    have hl : ∀ e ∈ l, e < 10 := fun e he => h e (List.mem_cons_of_mem d he)
    simp only [List.reverse_cons, List.map_append, List.map_cons, List.map_nil]
    rw [parseDigits_snoc, ih hl, Option.some_bind, digitVal_digitChar d hd]
    simp [Nat.ofDigits_cons]
    omega

theorem parseDigits_fmtNat (n : Nat) : parseDigits (fmtNat n) 0 = some n := by
  rw [fmtNat_eq]
  by_cases h0 : n = 0
  · subst h0; rfl
  · rw [if_neg h0, parseDigits_digits _ (fun d hd => Nat.digits_lt_base (by norm_num) hd),
      Nat.ofDigits_digits]

theorem fmtNat_injective (a b : Nat) (h : fmtNat a = fmtNat b) : a = b := by
  have ha := parseDigits_fmtNat a
  rw [h, parseDigits_fmtNat b] at ha
  exact (Option.some.inj ha).symm

theorem fmtNat_isDigit (n : Nat) : ∀ c ∈ fmtNat n, 48 ≤ c.toNat ∧ c.toNat ≤ 57 := by
  intro c hc
  rw [fmtNat_eq] at hc
  by_cases h0 : n = 0
  · rw [if_pos h0] at hc
    simp only [List.mem_singleton] at hc
    subst hc; decide
  · rw [if_neg h0, List.mem_map] at hc
    obtain ⟨d, _, rfl⟩ := hc
    exact digitChar_isDigit d

theorem fmtNat_ne_nil (n : Nat) : fmtNat n ≠ [] := by
  intro h
  have := parseDigits_fmtNat n
  rw [h] at this
  have h0 : n = 0 := by simpa [parseDigits] using this.symm
  subst h0
  exact absurd h (by decide)

theorem Sprintf_d_injective (x y : Int) (h : Sprintf_d x = Sprintf_d y) : x = y := by
  have hminus : ∀ (n : Nat) (l : Str), fmtNat n ≠ '-' :: l := by
    intro n l hl
    have := fmtNat_isDigit n '-' (by rw [hl]; exact List.mem_cons_self _ _)
    exact absurd this (by decide)
  unfold Sprintf_d at h
  by_cases hx : x < 0 <;> by_cases hy : y < 0
  · rw [if_pos hx, if_pos hy] at h
    have := fmtNat_injective _ _ (List.cons.inj h).2
    omega
  · rw [if_pos hx, if_neg hy] at h
    exact absurd h.symm (hminus _ _)
  · rw [if_neg hx, if_pos hy] at h
    exact absurd h (hminus _ _)
  · rw [if_neg hx, if_neg hy] at h
    have := fmtNat_injective _ _ h
    omega

theorem Sprintf_d_chars (x : Int) : ∀ c ∈ Sprintf_d x, c = '-' ∨ (48 ≤ c.toNat ∧ c.toNat ≤ 57) := by
  intro c hc
  unfold Sprintf_d at hc
  split at hc
  · rcases List.mem_cons.mp hc with rfl | hc
    · exact Or.inl rfl
    · exact Or.inr (fmtNat_isDigit _ c hc)
  · exact Or.inr (fmtNat_isDigit _ c hc)

theorem Atoi_Sprintf_d (x : Int) (hlo : -2 ^ 63 ≤ x) (hhi : x < 2 ^ 63) :
    Atoi (Sprintf_d x) = .ok x := by
  unfold Sprintf_d
  by_cases hx : x < 0
  · rw [if_pos hx]
    have hle : x.natAbs ≤ 2 ^ 63 := by omega
    simp only [Atoi, fmtNat_ne_nil, if_false, parseDigits_fmtNat, List.head?_cons, if_true, hle]
    congr 1
    omega
  · rw [if_neg hx]
    have hlt : x.natAbs < 2 ^ 63 := by omega
    have hbody : (match fmtNat x.natAbs with
        | '-' :: r => r
        | '+' :: r => r
        | _ => fmtNat x.natAbs) = fmtNat x.natAbs := by
      split
      · rename_i r heq
        have := fmtNat_isDigit _ '-' (by rw [heq]; exact List.mem_cons_self _ _)
        exact absurd this (by decide)
      · rename_i r heq
        have := fmtNat_isDigit _ '+' (by rw [heq]; exact List.mem_cons_self _ _)
        exact absurd this (by decide)
      · rfl
    have hhead : (fmtNat x.natAbs).head? ≠ some '-' := by
      intro h
      have := fmtNat_isDigit _ '-' (List.mem_of_mem_head? h)
      exact absurd this (by decide)
    simp only [Atoi, hbody, fmtNat_ne_nil, if_false, parseDigits_fmtNat, hhead, hlt, if_true]
    congr 1
    omega

theorem ParseBool_Sprintf_t (b : Bool) : ParseBool (Sprintf_t b) = .ok b := by
  cases b <;> rfl

theorem Sprintf_t_chars (b : Bool) : '|' ∉ Sprintf_t b ∧ '\n' ∉ Sprintf_t b := by
  cases b <;> decide

/-! ## Dates: `Format` and `time.Parse` -/

theorem appendInt_chars (x : Int) (w : Nat) :
    ∀ c ∈ appendInt x w, c = '-' ∨ (48 ≤ c.toNat ∧ c.toNat ≤ 57) := by
  intro c hc
  unfold appendInt at hc
  rcases List.mem_append.mp hc with hc | hc
  · split at hc
    · exact Or.inl (List.mem_singleton.mp hc)
    · exact absurd hc (List.not_mem_nil c)
  · rcases List.mem_append.mp hc with hc | hc
    · rw [(List.mem_replicate.mp hc).2]
      exact Or.inr (by decide)
    · exact Or.inr (fmtNat_isDigit _ c hc)

theorem appendInt_ne_nil (x : Int) (w : Nat) : appendInt x w ≠ [] := by
  unfold appendInt
  simp [fmtNat_ne_nil]

theorem Format_chars (t : Time) :
    ∀ c ∈ Format t, c = '-' ∨ c = ' ' ∨ c = ':' ∨ (48 ≤ c.toNat ∧ c.toNat ≤ 57) := by
  intro c hc
  unfold Format at hc
  simp only [List.mem_append, List.mem_cons] at hc
  rcases hc with h | rfl | h | rfl | h | rfl | h | rfl | h | rfl | h
  all_goals first
    | exact Or.inl rfl
    | exact Or.inr (Or.inl rfl)
    | exact Or.inr (Or.inr (Or.inl rfl))
    | (rcases appendInt_chars _ _ c h with h | h
       · exact Or.inl h
       · exact Or.inr (Or.inr (Or.inr h)))

theorem Format_ne_nil (t : Time) : Format t ≠ [] := by
  unfold Format
  simp [appendInt_ne_nil]

theorem Parse_emptyLayout_ok (value : Str) (d : Time) (h : Parse_emptyLayout value = .ok d) :
    value = [] ∧ d = yearZero := by
  unfold Parse_emptyLayout at h
  split at h
  · rename_i hv
    injection h with h
    exact ⟨hv, h.symm⟩
  · injection h

theorem Parse_emptyLayout_Format (t : Time) :
    Parse_emptyLayout (Format t) = .error (.timeParse (Format t)) := by
  unfold Parse_emptyLayout
  rw [if_neg (Format_ne_nil t)]

/-! ## Splitting, trimming and scanning -/

theorem Split_cons (c : Char) (cs : Str) (sep : Char) :
    Split (c :: cs) sep =
      if c = sep then [] :: Split cs sep
      else
        match Split cs sep with
        | [] => [[c]]
        | f :: fs => (c :: f) :: fs := by
  rw [Split]

theorem Split_no_sep (sep : Char) (a : Str) (h : sep ∉ a) : Split a sep = [a] := by
  induction a with
  | nil => rfl
  | cons c cs ih =>
    have hc : c ≠ sep := fun hc => h (hc ▸ List.mem_cons_self _ _)
    have hcs : sep ∉ cs := fun hm => h (List.mem_cons_of_mem _ hm)
    rw [Split_cons, if_neg hc, ih hcs]

theorem Split_append_sep (sep : Char) (a b : Str) (h : sep ∉ a) :
    Split (a ++ sep :: b) sep = a :: Split b sep := by
  induction a with
  | nil =>
    show Split (sep :: b) sep = _
    rw [Split_cons, if_pos rfl]
  | cons c cs ih =>
    have hc : c ≠ sep := fun hc => h (hc ▸ List.mem_cons_self _ _)
    have hcs : sep ∉ cs := fun hm => h (List.mem_cons_of_mem _ hm)
    show Split (c :: (cs ++ sep :: b)) sep = _
    rw [Split_cons, if_neg hc, ih hcs]

theorem Split_mem (sep : Char) (s : Str) : ∀ f ∈ Split s sep, ∀ c ∈ f, c ∈ s := by
  induction s with
  | nil =>
    intro f hf c hc
    simp only [Split, List.mem_singleton] at hf
    subst hf
    exact hc
  | cons a cs ih =>
    intro f hf c hc
    rw [Split_cons] at hf
    by_cases ha : a = sep
    · rw [if_pos ha] at hf
      rcases List.mem_cons.mp hf with rfl | hf
      · exact absurd hc (List.not_mem_nil c)
      · exact List.mem_cons_of_mem _ (ih f hf c hc)
    · rw [if_neg ha] at hf
      cases hs : Split cs sep with
      | nil =>
        rw [hs] at hf
        simp only [List.mem_singleton] at hf
        subst hf
        rw [List.mem_singleton.mp hc]
        exact List.mem_cons_self _ _
      | cons f0 fs =>
        rw [hs] at hf ih
        simp only [List.mem_cons] at hf
        rcases hf with rfl | hf
        · rcases List.mem_cons.mp hc with h | h
          · rw [h]; exact List.mem_cons_self _ _
          · exact List.mem_cons_of_mem _ (ih f0 (List.mem_cons_self _ _) c h)
        · exact List.mem_cons_of_mem _ (ih f (List.mem_cons_of_mem _ hf) c hc)

theorem ReadString_fst (r : Str) :
    ∃ l, '\n' ∉ l ∧ ((ReadString r).1 = l ∨ (ReadString r).1 = l ++ ['\n']) := by
  induction r with
  | nil => exact ⟨[], by simp, Or.inl rfl⟩
  | cons c cs ih =>
    by_cases hc : c = '\n'
    · refine ⟨[], by simp, Or.inr ?_⟩
      simp [ReadString, hc]
    · obtain ⟨l, hl, h⟩ := ih
      refine ⟨c :: l, ?_, ?_⟩
      · intro hm
        rcases List.mem_cons.mp hm with h' | h'
        · exact hc h'.symm
        · exact hl h'
      · simp only [ReadString, if_neg hc]
        rcases h with h | h
        · exact Or.inl (by rw [h])
        · exact Or.inr (by rw [h]; rfl)

theorem mem_of_mem_TrimSpace (s : Str) (c : Char) (h : c ∈ TrimSpace s) : c ∈ s := by
  unfold TrimSpace at h
  rw [List.mem_reverse] at h
  have h1 := (List.dropWhile_sublist isSpace).subset h
  rw [List.mem_reverse] at h1
  exact (List.dropWhile_sublist isSpace).subset h1

theorem dropWhile_snoc (p : Char → Bool) (x : Char) (hx : p x = true) (l : Str) :
    List.dropWhile p (l ++ [x]) = [] ∨
      ∃ l', List.dropWhile p (l ++ [x]) = l' ++ [x] ∧ ∀ c ∈ l', c ∈ l := by
  induction l with
  | nil => left; simp [List.dropWhile, hx]
  | cons a l ih =>
    by_cases ha : p a = true
    · have : List.dropWhile p (a :: l ++ [x]) = List.dropWhile p (l ++ [x]) := by
        simp [List.dropWhile, ha]
      rw [this]
      rcases ih with h | ⟨l', h, hsub⟩
      · exact Or.inl h
      · exact Or.inr ⟨l', h, fun c hc => List.mem_cons_of_mem _ (hsub c hc)⟩
    · right
      refine ⟨a :: l, ?_, fun c hc => hc⟩
      simp [List.dropWhile, ha]

theorem TrimSpace_line_no_newline (r : Str) : '\n' ∉ TrimSpace (ReadString r).1 := by
  obtain ⟨l, hl, h | h⟩ := ReadString_fst r
  · rw [h]
    exact fun hm => hl (mem_of_mem_TrimSpace _ _ hm)
  · rw [h]
    intro hm
    unfold TrimSpace at hm
    rcases dropWhile_snoc isSpace '\n' (by decide) l with h0 | ⟨l', h1, hsub⟩
    · rw [h0] at hm
      simp at hm
    · rw [h1, List.mem_reverse] at hm
      have h2 : List.dropWhile isSpace (l' ++ ['\n']).reverse =
          List.dropWhile isSpace l'.reverse := by
        rw [List.reverse_append]
        show List.dropWhile isSpace ('\n' :: l'.reverse) = _
        rw [List.dropWhile_cons_of_pos (by decide)]
      rw [h2] at hm
      have h3 := (List.dropWhile_sublist isSpace).subset hm
      rw [List.mem_reverse] at h3
      exact hl (hsub _ h3)

theorem rawLines_length_le (s : Str) : (rawLines s).length ≤ s.length := by
  induction s with
  | nil => simp [rawLines]
  | cons c cs ih =>
    unfold rawLines
    by_cases hc : c = '\n'
    · simp [hc, ih]
    · rw [if_neg hc]
      cases h : rawLines cs with
      | nil => simp
      | cons l ls =>
        rw [h] at ih
        simp only [List.length_cons] at ih ⊢
        omega

theorem rawLines_no_newline (s : Str) : ∀ l ∈ rawLines s, '\n' ∉ l := by
  induction s with
  | nil => intro l hl; simp [rawLines] at hl
  | cons c cs ih =>
    intro l hl
    unfold rawLines at hl
    by_cases hc : c = '\n'
    · rw [if_pos hc] at hl
      rcases List.mem_cons.mp hl with rfl | hl
      · simp
      · exact ih l hl
    · rw [if_neg hc] at hl
      cases hr : rawLines cs with
      | nil =>
        rw [hr] at hl
        simp only [List.mem_singleton] at hl
        subst hl
        simpa using fun h => hc h.symm
      | cons l0 ls =>
        rw [hr] at hl ih
        simp only [List.mem_cons] at hl
        rcases hl with rfl | hl
        · intro hm
          rcases List.mem_cons.mp hm with h | h
          · exact hc h.symm
          · exact ih l0 (List.mem_cons_self _ _) h
        · exact ih l (List.mem_cons_of_mem _ hl)

theorem rawLines_append_newline (a b : Str) (h : '\n' ∉ a) :
    rawLines (a ++ '\n' :: b) = a :: rawLines b := by
  induction a with
  | nil =>
    show rawLines ('\n' :: b) = _
    rw [rawLines, if_pos rfl]
  | cons c cs ih =>
    have hc : c ≠ '\n' := fun hc => h (hc ▸ List.mem_cons_self _ _)
    have hcs : '\n' ∉ cs := fun hm => h (List.mem_cons_of_mem _ hm)
    show rawLines (c :: (cs ++ '\n' :: b)) = _
    rw [rawLines, if_neg hc, ih hcs]

theorem scanLines_length_le (s : Str) : (scanLines s).length ≤ s.length := by
  unfold scanLines
  rw [List.length_map]
  exact le_trans (List.takeWhile_sublist _).length_le (rawLines_length_le s)

theorem scanLines_no_newline (s : Str) : ∀ l ∈ scanLines s, '\n' ∉ l := by
  intro l hl
  unfold scanLines at hl
  obtain ⟨l0, hl0, rfl⟩ := List.mem_map.mp hl
  have h0 := rawLines_no_newline s l0 ((List.takeWhile_sublist _).subset hl0)
  unfold dropCR
  split
  · exact fun hm => h0 (List.mem_of_mem_dropLast hm)
  · exact h0

/-! ## The loop shared by `DoTask`, `RemoveTask` and `UpdateTask` -/

theorem matchIndex_none (id : Str) (ts : List Task) :
    matchIndex id ts = none ↔ ∀ t ∈ ts, Sprintf_d t.Id ≠ id := by
  induction ts with
  | nil => simp [matchIndex]
  | cons t ts ih =>
    unfold matchIndex
    by_cases h : Sprintf_d t.Id = id
    · simp [h]
    · simp [h, ih]

theorem matchIndex_some (id : Str) (ts : List Task) : ∀ i, matchIndex id ts = some i →
    ∃ pre t post, ts = pre ++ t :: post ∧ pre.length = i ∧ Sprintf_d t.Id = id ∧
      ∀ u ∈ pre, Sprintf_d u.Id ≠ id := by
  induction ts with
  | nil => intro i h; simp [matchIndex] at h
  | cons t ts ih =>
    intro i h
    unfold matchIndex at h
    by_cases ht : Sprintf_d t.Id = id
    · rw [if_pos ht] at h
      refine ⟨[], t, ts, rfl, ?_, ht, by simp⟩
      simpa using Option.some.inj h
    · rw [if_neg ht] at h
      cases hm : matchIndex id ts with
      | none => rw [hm] at h; simp at h
      | some j =>
        rw [hm] at h
        obtain ⟨pre, u, post, hts, hlen, hu, hpre⟩ := ih j hm
        refine ⟨t :: pre, u, post, by rw [hts]; rfl, ?_, hu, ?_⟩
        · have : j + 1 = i := by simpa using h
          simp [hlen, this]
        · intro v hv
          rcases List.mem_cons.mp hv with rfl | hv
          · exact ht
          · exact hpre v hv

/-- The first task carrying the integer id `k`, when some task carries it: the split of the
list the loop finds on the input that prints `k`. -/
theorem matchIndex_of_mem (k : Int) (ts : List Task) (h : ∃ t ∈ ts, t.Id = k) :
    ∃ pre t post, ts = pre ++ t :: post ∧ t.Id = k ∧ (∀ u ∈ pre, u.Id ≠ k) ∧
      matchIndex (Sprintf_d k) ts = some pre.length := by
  cases hm : matchIndex (Sprintf_d k) ts with
  | none =>
    obtain ⟨t, ht, rfl⟩ := h
    exact absurd rfl ((matchIndex_none _ _).mp hm t ht)
  | some i =>
    obtain ⟨pre, t, post, hts, hlen, ht, hpre⟩ := matchIndex_some _ _ i hm
    refine ⟨pre, t, post, hts, Sprintf_d_injective _ _ ht, ?_, by rw [hlen]⟩
    intro u hu huk
    exact hpre u hu (by rw [huk])

theorem modifyAt_append (f : Task → Task) (pre : List Task) (t : Task) (post : List Task) :
    modifyAt f (pre ++ t :: post) pre.length = pre ++ f t :: post := by
  induction pre with
  | nil => rfl
  | cons p pre ih => simp [modifyAt, ih]

theorem modifyAt_length (f : Task → Task) (ts : List Task) : ∀ i, (modifyAt f ts i).length = ts.length := by
  induction ts with
  | nil => intro i; rfl
  | cons t ts ih =>
    intro i
    cases i with
    | zero => rfl
    | succ i => simp [modifyAt, ih]

theorem mem_modifyAt (f : Task → Task) (ts : List Task) : ∀ (i : Nat) (u : Task),
    u ∈ modifyAt f ts i → u ∈ ts ∨ ∃ t ∈ ts, u = f t := by
  induction ts with
  | nil => intro i u hu; simp [modifyAt] at hu
  | cons t ts ih =>
    intro i u hu
    cases i with
    | zero =>
      simp only [modifyAt, List.mem_cons] at hu
      rcases hu with rfl | hu
      · exact Or.inr ⟨t, List.mem_cons_self _ _, rfl⟩
      · exact Or.inl (List.mem_cons_of_mem _ hu)
    | succ i =>
      simp only [modifyAt, List.mem_cons] at hu
      rcases hu with rfl | hu
      · exact Or.inl (List.mem_cons_self _ _)
      · rcases ih i u hu with h | ⟨v, hv, rfl⟩
        · exact Or.inl (List.mem_cons_of_mem _ h)
        · exact Or.inr ⟨v, List.mem_cons_of_mem _ hv, rfl⟩

theorem take_drop_append (pre : List Task) (t : Task) (post : List Task) :
    (pre ++ t :: post).take pre.length ++ (pre ++ t :: post).drop (pre.length + 1) = pre ++ post := by
  simp

theorem DoTask_some (m : TaskListManager) (i : Nat)
    (h : matchIndex (TrimSpace (ReadString m.Reader).1) m.TaskList.Tasks = some i) :
    DoTask m =
      { m with
        Reader := (ReadString m.Reader).2
        Writer := m.Writer ++ [Out.text promptId]
        TaskList :=
          { Tasks := modifyAt (fun t => { t with Completed := true }) m.TaskList.Tasks i
            NextId := m.TaskList.NextId } } := by
  simp only [DoTask, println]
  rw [h]

theorem DoTask_none (m : TaskListManager)
    (h : matchIndex (TrimSpace (ReadString m.Reader).1) m.TaskList.Tasks = none) :
    DoTask m =
      { m with
        Reader := (ReadString m.Reader).2
        Writer := m.Writer ++ [Out.text promptId, Out.text msgNotFound] } := by
  simp only [DoTask, println]
  rw [h]
  simp

theorem RemoveTask_some (m : TaskListManager) (i : Nat)
    (h : matchIndex (TrimSpace (ReadString m.Reader).1) m.TaskList.Tasks = some i) :
    RemoveTask m =
      { m with
        Reader := (ReadString m.Reader).2
        Writer := m.Writer ++ [Out.text promptId]
        TaskList :=
          { Tasks := m.TaskList.Tasks.take i ++ m.TaskList.Tasks.drop (i + 1)
            NextId := m.TaskList.NextId } } := by
  simp only [RemoveTask, println]
  rw [h]

theorem RemoveTask_none (m : TaskListManager)
    (h : matchIndex (TrimSpace (ReadString m.Reader).1) m.TaskList.Tasks = none) :
    RemoveTask m =
      { m with
        Reader := (ReadString m.Reader).2
        Writer := m.Writer ++ [Out.text promptId, Out.text msgNotFound] } := by
  simp only [RemoveTask, println]
  rw [h]
  simp

theorem UpdateTask_some (m : TaskListManager) (i : Nat)
    (h : matchIndex (TrimSpace (ReadString m.Reader).1) m.TaskList.Tasks = some i) :
    UpdateTask m =
      { m with
        Reader := (ReadString (ReadString m.Reader).2).2
        Writer := m.Writer ++ [Out.text promptId, Out.text promptDescription]
        TaskList :=
          { Tasks := modifyAt
              (fun t => { t with Description := TrimSpace (ReadString (ReadString m.Reader).2).1 })
              m.TaskList.Tasks i
            NextId := m.TaskList.NextId } } := by
  simp only [UpdateTask, println]
  rw [h]
  simp

theorem UpdateTask_none (m : TaskListManager)
    (h : matchIndex (TrimSpace (ReadString m.Reader).1) m.TaskList.Tasks = none) :
    UpdateTask m =
      { m with
        Reader := (ReadString m.Reader).2
        Writer := m.Writer ++ [Out.text promptId, Out.text msgNotFound] } := by
  simp only [UpdateTask, println]
  rw [h]
  simp

theorem DoTask_frame (m : TaskListManager) :
    (DoTask m).TaskList.NextId = m.TaskList.NextId ∧
      (DoTask m).TaskList.Tasks.length = m.TaskList.Tasks.length := by
  cases hm : matchIndex (TrimSpace (ReadString m.Reader).1) m.TaskList.Tasks with
  | none => rw [DoTask_none m hm]; exact ⟨rfl, rfl⟩
  | some i => rw [DoTask_some m i hm]; exact ⟨rfl, modifyAt_length _ _ _⟩

theorem UpdateTask_frame (m : TaskListManager) :
    (UpdateTask m).TaskList.NextId = m.TaskList.NextId ∧
      (UpdateTask m).TaskList.Tasks.length = m.TaskList.Tasks.length := by
  cases hm : matchIndex (TrimSpace (ReadString m.Reader).1) m.TaskList.Tasks with
  | none => rw [UpdateTask_none m hm]; exact ⟨rfl, rfl⟩
  | some i => rw [UpdateTask_some m i hm]; exact ⟨rfl, modifyAt_length _ _ _⟩

theorem RemoveTask_frame (m : TaskListManager) :
    (RemoveTask m).TaskList.NextId = m.TaskList.NextId ∧
      (RemoveTask m).TaskList.Tasks.length ≤ m.TaskList.Tasks.length := by
  cases hm : matchIndex (TrimSpace (ReadString m.Reader).1) m.TaskList.Tasks with
  | none => rw [RemoveTask_none m hm]; exact ⟨rfl, le_refl _⟩
  | some i =>
    rw [RemoveTask_some m i hm]
    refine ⟨rfl, ?_⟩
    show (m.TaskList.Tasks.take i ++ m.TaskList.Tasks.drop (i + 1)).length ≤ _
    simp only [List.length_append, List.length_take, List.length_drop]
    omega

theorem ListTasks_TaskList (m : TaskListManager) : (ListTasks m).TaskList = m.TaskList := by
  unfold ListTasks
  split <;> rfl

/-! ## The text `SaveTasks` writes -/

theorem saveLine_Split (t : Task) (h : '|' ∉ t.Description) :
    Split (saveLine t) '|' =
      [Sprintf_d t.Id, t.Description, Sprintf_t t.Completed, Format t.Date] := by
  have h1 : '|' ∉ Sprintf_d t.Id := by
    intro hm
    rcases Sprintf_d_chars _ _ hm with h | h
    · exact absurd h (by decide)
    · exact absurd h (by decide)
  have h3 : '|' ∉ Format t.Date := by
    intro hm
    rcases Format_chars _ _ hm with h | h | h | h
    · exact absurd h (by decide)
    · exact absurd h (by decide)
    · exact absurd h (by decide)
    · exact absurd h (by decide)
  unfold saveLine
  rw [Split_append_sep _ _ _ h1, Split_append_sep _ _ _ h, Split_append_sep _ _ _ (Sprintf_t_chars _).1,
    Split_no_sep _ _ h3]

theorem saveLine_no_newline (t : Task) (h : '\n' ∉ t.Description) : '\n' ∉ saveLine t := by
  intro hm
  unfold saveLine at hm
  simp only [List.mem_append, List.mem_cons] at hm
  rcases hm with hm | hm | hm | hm | hm | hm | hm
  · rcases Sprintf_d_chars _ _ hm with h | h
    · exact absurd h (by decide)
    · exact absurd h (by decide)
  · exact absurd hm (by decide)
  · exact h hm
  · exact absurd hm (by decide)
  · exact (Sprintf_t_chars _).2 hm
  · exact absurd hm (by decide)
  · rcases Format_chars _ _ hm with h | h | h | h
    · exact absurd h (by decide)
    · exact absurd h (by decide)
    · exact absurd h (by decide)
    · exact absurd h (by decide)

theorem saveText_lines (ts : List Task) (h : ∀ t ∈ ts, '\n' ∉ t.Description) :
    Split (saveText ts) '\n' = ts.map saveLine ++ [[]] := by
  induction ts with
  | nil => rfl
  | cons t ts ih =>
    have ht := saveLine_no_newline t (h t (List.mem_cons_self _ _))
    have hts : ∀ u ∈ ts, '\n' ∉ u.Description := fun u hu => h u (List.mem_cons_of_mem _ hu)
    show Split (saveLine t ++ '\n' :: saveText ts) '\n' = _
    rw [Split_append_sep _ _ _ ht, ih hts]
    rfl

theorem lastChar_append_cons (l₁ l₂ : Str) (c : Char) (h : l₂ ≠ []) :
    (l₁ ++ c :: l₂).getLast? = l₂.getLast? := by
  have : l₁ ++ c :: l₂ = (l₁ ++ [c]) ++ l₂ := by simp
  rw [this, List.getLast?_append_of_ne_nil _ h]

theorem appendInt_lastChar (x : Int) (w : Nat) :
    (appendInt x w).getLast? = (fmtNat x.natAbs).getLast? := by
  unfold appendInt
  rw [List.getLast?_append_of_ne_nil _ (by simp [fmtNat_ne_nil]),
    List.getLast?_append_of_ne_nil _ (fmtNat_ne_nil _)]

theorem saveLine_lastChar (t : Task) :
    (saveLine t).getLast? = (fmtNat (t.Date.second : Int).natAbs).getLast? := by
  unfold saveLine
  rw [lastChar_append_cons _ _ _ (by simp), lastChar_append_cons _ _ _ (by simp),
    lastChar_append_cons _ _ _ (Format_ne_nil _)]
  unfold Format
  rw [lastChar_append_cons _ _ _ (by simp), lastChar_append_cons _ _ _ (by simp),
    lastChar_append_cons _ _ _ (by simp), lastChar_append_cons _ _ _ (by simp),
    lastChar_append_cons _ _ _ (appendInt_ne_nil _ _), appendInt_lastChar]

theorem dropCR_saveLine (t : Task) : dropCR (saveLine t) = saveLine t := by
  unfold dropCR
  rw [if_neg]
  intro h
  rw [saveLine_lastChar] at h
  have := fmtNat_isDigit _ _ (List.mem_of_getLast?_eq_some h)
  exact absurd this (by decide)

/-! ## The loop of `ReadTasks` -/

theorem wrapInt_succ (z : Int) (h0 : 0 ≤ z) (h1 : z + 1 < 2 ^ 63) : wrapInt (z + 1) = z + 1 := by
  unfold wrapInt
  rw [Int.emod_eq_of_lt (by omega) (by omega)]
  omega

/-- Along the loop of `ReadTasks`, `NextId` stays one more than the number of tasks, as long
as the lines are too few for the counter to wrap around. -/
theorem readLoop_NextId (lines : List Str) : ∀ (m m' : TaskListManager),
    readLoop lines m = Outcome.returned m' →
    m.TaskList.NextId = (m.TaskList.Tasks.length : Int) + 1 →
    m.TaskList.Tasks.length + lines.length < 2 ^ 63 - 1 →
    m'.TaskList.NextId = (m'.TaskList.Tasks.length : Int) + 1 := by
  induction lines with
  | nil =>
    intro m m' h hinv _
    simp only [readLoop, Outcome.returned.injEq] at h
    subst h
    exact hinv
  | cons line rest ih =>
    intro m m' h hinv hlen
    unfold readLoop at h
    split at h
    · exact absurd h (by simp)
    · exact absurd h (by simp)
    · exact absurd h (by simp)
    · exact absurd h (by simp)
    · split at h
      · simp only [Outcome.returned.injEq] at h
        subst h
        exact hinv
      · split at h
        · simp only [Outcome.returned.injEq] at h
          subst h
          exact hinv
        · split at h
          · simp only [Outcome.returned.injEq] at h
            subst h
            exact hinv
          · refine ih _ m' h ?_ ?_
            · simp only [List.length_append, List.length_singleton]
              rw [hinv, wrapInt_succ _ (by omega) ?_]
              · push_cast; ring
              · simp only [List.length_cons] at hlen
                omega
            · simp only [List.length_append, List.length_cons, List.length_nil] at hlen ⊢
              omega

theorem ReadTasks_NextId (m m' : TaskListManager) (content : Str) (hfile : m.File = some content)
    (hsmall : smallFile content) (h : ReadTasks m = Outcome.returned m') :
    m'.TaskList.NextId = (m'.TaskList.Tasks.length : Int) + 1 := by
  unfold ReadTasks at h
  rw [hfile] at h
  refine readLoop_NextId _ _ m' h (by simp) ?_
  have := scanLines_length_le content
  unfold smallFile at hsmall
  simp only [List.length_nil, zero_add]
  omega

/-- The loop of `ReadTasks` only adds tasks dated `yearZero` whose description is a field of a
scanned line. -/
theorem readLoop_tasks (lines : List Str) : ∀ (m m' : TaskListManager),
    readLoop lines m = Outcome.returned m' →
    (∀ l ∈ lines, '\n' ∉ l) →
    (∀ t ∈ m.TaskList.Tasks, t.Date = yearZero ∧ '\n' ∉ t.Description) →
    ∀ t ∈ m'.TaskList.Tasks, t.Date = yearZero ∧ '\n' ∉ t.Description := by
  induction lines with
  | nil =>
    intro m m' h _ hinv
    simp only [readLoop, Outcome.returned.injEq] at h
    subst h
    exact hinv
  | cons line rest ih =>
    intro m m' h hlines hinv
    have hline : '\n' ∉ line := hlines line (List.mem_cons_self _ _)
    have hrest : ∀ l ∈ rest, '\n' ∉ l := fun l hl => hlines l (List.mem_cons_of_mem _ hl)
    unfold readLoop at h
    split at h
    · exact absurd h (by simp)
    · exact absurd h (by simp)
    · exact absurd h (by simp)
    · exact absurd h (by simp)
    · rename_i id description completed date more hsplit
      split at h
      · simp only [Outcome.returned.injEq] at h
        subst h
        exact hinv
      · split at h
        · simp only [Outcome.returned.injEq] at h
          subst h
          exact hinv
        · split at h
          · simp only [Outcome.returned.injEq] at h
            subst h
            exact hinv
          · rename_i d hd
            refine ih _ m' h hrest ?_
            intro t ht
            rcases List.mem_append.mp ht with ht | ht
            · exact hinv t ht
            · rw [List.mem_singleton.mp ht]
              refine ⟨(Parse_emptyLayout_ok _ _ hd).2, ?_⟩
              intro hm
              have hmem : description ∈ Split line '|' := by
                rw [hsplit]
                exact List.mem_cons_of_mem _ (List.mem_cons_self _ _)
              exact hline (Split_mem '|' line description hmem _ hm)

/-- A scanned line with fewer than four fields stops the process at the first field that is
missing, whatever has been read before. -/
theorem readLoop_too_few_fields (line : Str) (rest : List Str) (m : TaskListManager)
    (h : (Split line '|').length < 4) :
    readLoop (line :: rest) m =
      Outcome.panicked (Split line '|').length (Split line '|').length := by
  rw [readLoop]
  split
  · rename_i heq; rw [heq]; rfl
  · rename_i heq; rw [heq]; rfl
  · rename_i heq; rw [heq]; rfl
  · rename_i heq; rw [heq]; rfl
  · rename_i heq
    rw [heq] at h
    simp only [List.length_cons] at h
    omega

/-- The reload of a saved store with at least one task: when the description of the first
task has no `|` and no newline, its id is a Go `int` and its line fits the buffer of the
scanner, `ReadTasks` on the file `SaveTasks` wrote stops at that first line with the error of
`time.Parse` on the date `Format` wrote, and leaves no task and `NextId` 1. -/
theorem ReadTasks_SaveTasks_first_line (m : TaskListManager) (t : Task) (ts : List Task)
    (htasks : m.TaskList.Tasks = t :: ts)
    (hpipe : '|' ∉ t.Description) (hnl : '\n' ∉ t.Description)
    (hlo : -2 ^ 63 ≤ t.Id) (hhi : t.Id < 2 ^ 63)
    (hlen : byteLen (saveLine t) < MaxScanTokenSize) :
    ReadTasks (SaveTasks m) =
      Outcome.returned
        { SaveTasks m with
          TaskList := { Tasks := [], NextId := 1 }
          Writer := m.Writer ++ [Out.error (GoError.timeParse (Format t.Date))] } := by
  have hrest : scanLines (saveText (t :: ts)) = saveLine t :: scanLines (saveText ts) := by
    unfold scanLines
    show List.map dropCR (List.takeWhile _ (rawLines (saveLine t ++ '\n' :: saveText ts))) = _
    rw [rawLines_append_newline _ _ (saveLine_no_newline t hnl),
      List.takeWhile_cons_of_pos (by simpa using hlen), List.map_cons, dropCR_saveLine]
  simp only [ReadTasks, SaveTasks, htasks, hrest]
  rw [readLoop]
  simp only [saveLine_Split t hpipe, Atoi_Sprintf_d t.Id hlo hhi, ParseBool_Sprintf_t,
    Parse_emptyLayout_Format, printErr]

/-- Along the loop of `ReadTasks`, on lines whose ids follow the counter and are too few for
the counter to wrap around, `NextId` stays above the id of every task read. -/
theorem readLoop_ids (lines : List Str) : ∀ (m m' : TaskListManager),
    readLoop lines m = Outcome.returned m' →
    m.TaskList.NextId = (m.TaskList.Tasks.length : Int) + 1 →
    m.TaskList.Tasks.length + lines.length < 2 ^ 63 - 1 →
    idsWithin lines m.TaskList.NextId = true →
    (∀ t ∈ m.TaskList.Tasks, t.Id < m.TaskList.NextId) →
    ∀ t ∈ m'.TaskList.Tasks, t.Id < m'.TaskList.NextId := by
  induction lines with
  | nil =>
    intro m m' h _ _ _ hinv
    simp only [readLoop, Outcome.returned.injEq] at h
    subst h
    exact hinv
  | cons line rest ih =>
    intro m m' h hnext hlen hids hinv
    unfold readLoop at h
    split at h
    · exact absurd h (by simp)
    · exact absurd h (by simp)
    · exact absurd h (by simp)
    · exact absurd h (by simp)
    · rename_i id description completed date more hsplit
      split at h
      · simp only [Outcome.returned.injEq] at h
        subst h
        exact hinv
      · rename_i n hn
        split at h
        · simp only [Outcome.returned.injEq] at h
          subst h
          exact hinv
        · split at h
          · simp only [Outcome.returned.injEq] at h
            subst h
            exact hinv
          · simp only [idsWithin, hsplit, List.headD_cons, hn, Bool.and_eq_true,
              decide_eq_true_eq] at hids
            have hwrap : wrapInt (m.TaskList.NextId + 1) = m.TaskList.NextId + 1 := by
              rw [hnext]
              refine wrapInt_succ _ (by omega) ?_
              simp only [List.length_cons] at hlen
              omega
            refine ih _ m' h ?_ ?_ ?_ ?_
            · simp only [List.length_append, List.length_cons, List.length_nil]
              rw [hwrap, hnext]
              push_cast
              ring
            · simp only [List.length_append, List.length_cons, List.length_nil] at hlen ⊢
              omega
            · show idsWithin rest (wrapInt (m.TaskList.NextId + 1)) = true
              rw [hwrap]
              exact hids.2
            · intro t ht
              show t.Id < wrapInt (m.TaskList.NextId + 1)
              rw [hwrap]
              rcases List.mem_append.mp ht with ht | ht
              · have := hinv t ht
                omega
              · rw [List.mem_singleton.mp ht]
                show n < m.TaskList.NextId + 1
                have := hids.1
                omega

theorem Reachable_tasks (fileOk : Str → Prop) (m : TaskListManager) (h : Reachable fileOk m) :
    ∀ t ∈ m.TaskList.Tasks, t.Date = yearZero ∧ '\n' ∉ t.Description := by
  induction h with
  | init fileName stdin file => intro t ht; simp [NewTaskListManager] at ht
  | @complete m stdin _ ih =>
    intro u hu
    cases hm : matchIndex (TrimSpace (ReadString stdin).1) m.TaskList.Tasks with
    | none =>
      rw [DoTask_none { m with Reader := stdin } hm] at hu
      exact ih u hu
    | some i =>
      rw [DoTask_some { m with Reader := stdin } i hm] at hu
      rcases mem_modifyAt _ _ _ _ hu with h | ⟨t, ht, rfl⟩
      · exact ih u h
      · exact ih t ht
  | @update m stdin _ ih =>
    intro u hu
    cases hm : matchIndex (TrimSpace (ReadString stdin).1) m.TaskList.Tasks with
    | none =>
      rw [UpdateTask_none { m with Reader := stdin } hm] at hu
      exact ih u hu
    | some i =>
      rw [UpdateTask_some { m with Reader := stdin } i hm] at hu
      rcases mem_modifyAt _ _ _ _ hu with h | ⟨t, ht, rfl⟩
      · exact ih u h
      · exact ⟨(ih t ht).1, TrimSpace_line_no_newline _⟩
  | @remove m stdin _ ih =>
    intro u hu
    cases hm : matchIndex (TrimSpace (ReadString stdin).1) m.TaskList.Tasks with
    | none =>
      rw [RemoveTask_none { m with Reader := stdin } hm] at hu
      exact ih u hu
    | some i =>
      rw [RemoveTask_some { m with Reader := stdin } i hm] at hu
      rcases List.mem_append.mp hu with h | h
      · exact ih u (List.mem_of_mem_take h)
      · exact ih u (List.mem_of_mem_drop h)
  | save _ ih => exact ih
  | list _ ih => rw [ListTasks_TaskList]; exact ih
  | @load m m' file _ hok hread ih =>
    cases file with
    | none =>
      simp only [ReadTasks, Outcome.returned.injEq] at hread
      subst hread
      exact ih
    | some c =>
      simp only [ReadTasks] at hread
      exact readLoop_tasks _ _ m' hread (scanLines_no_newline c) (by intro t ht; simp at ht)

/-! ## C1, C2, C3: `DoTask`, `RemoveTask` and `UpdateTask` on an id that is present -/

/-- C1. `DoTask` on an id some task carries: whenever the store holds a task with the integer
id `k` and the line typed at the prompt is `k` in decimal (white space around it is trimmed),
the tasks split as `pre ++ t :: post` with `t` the first task carrying `k`, and afterwards they
are `pre ++ t' :: post` where `t'` is `t` with `Completed` set (same id, description and date);
`NextId` is unchanged and the only line written is the prompt, so no not-found message. -/
theorem DoTask_completes_first_match (m : TaskListManager) (k : Int)
    (hmem : ∃ t ∈ m.TaskList.Tasks, t.Id = k)
    (hin : TrimSpace (ReadString m.Reader).1 = Sprintf_d k) :
    ∃ pre t post, m.TaskList.Tasks = pre ++ t :: post ∧ t.Id = k ∧ (∀ u ∈ pre, u.Id ≠ k) ∧
      (DoTask m).TaskList.Tasks = pre ++ { t with Completed := true } :: post ∧
      (DoTask m).TaskList.NextId = m.TaskList.NextId ∧
      (DoTask m).Writer = m.Writer ++ [Out.text promptId] := by
  obtain ⟨pre, t, post, hts, htk, hpre, hidx⟩ := matchIndex_of_mem k _ hmem
  rw [← hin] at hidx
  refine ⟨pre, t, post, hts, htk, hpre, ?_, ?_, ?_⟩
  · rw [DoTask_some m _ hidx]
    show modifyAt _ m.TaskList.Tasks pre.length = _
    rw [hts, modifyAt_append]
  · rw [DoTask_some m _ hidx]
  · rw [DoTask_some m _ hidx]

theorem DoTask_completes_first_match_witness :
    (∃ t ∈ (scenario "1\n".toList none).TaskList.Tasks, t.Id = 1) ∧
    TrimSpace (ReadString (scenario "1\n".toList none).Reader).1 = Sprintf_d 1 ∧
    ∃ pre t post, (scenario "1\n".toList none).TaskList.Tasks = pre ++ t :: post ∧ t.Id = 1 ∧
      (∀ u ∈ pre, u.Id ≠ 1) ∧
      (DoTask (scenario "1\n".toList none)).TaskList.Tasks =
        pre ++ { t with Completed := true } :: post ∧
      (DoTask (scenario "1\n".toList none)).TaskList.NextId =
        (scenario "1\n".toList none).TaskList.NextId ∧
      (DoTask (scenario "1\n".toList none)).Writer =
        (scenario "1\n".toList none).Writer ++ [Out.text promptId] :=
  have h1 : ∃ t ∈ (scenario "1\n".toList none).TaskList.Tasks, t.Id = 1 :=
    ⟨_, List.mem_cons_self _ _, rfl⟩
  have h2 : TrimSpace (ReadString (scenario "1\n".toList none).Reader).1 = Sprintf_d 1 := by
    decide
  ⟨h1, h2, DoTask_completes_first_match (scenario "1\n".toList none) 1 h1 h2⟩

/-- C2. `RemoveTask` on an id some task carries: with the tasks split as `pre ++ t :: post`,
`t` the first task carrying the id `k` typed at the prompt, the tasks afterwards are
`pre ++ post` (the other tasks, unchanged and in their order) and `NextId` is what it was. -/
theorem RemoveTask_deletes_first_match (m : TaskListManager) (k : Int)
    (hmem : ∃ t ∈ m.TaskList.Tasks, t.Id = k)
    (hin : TrimSpace (ReadString m.Reader).1 = Sprintf_d k) :
    ∃ pre t post, m.TaskList.Tasks = pre ++ t :: post ∧ t.Id = k ∧ (∀ u ∈ pre, u.Id ≠ k) ∧
      (RemoveTask m).TaskList.Tasks = pre ++ post ∧
      (RemoveTask m).TaskList.NextId = m.TaskList.NextId ∧
      (RemoveTask m).Writer = m.Writer ++ [Out.text promptId] := by
  obtain ⟨pre, t, post, hts, htk, hpre, hidx⟩ := matchIndex_of_mem k _ hmem
  rw [← hin] at hidx
  refine ⟨pre, t, post, hts, htk, hpre, ?_, ?_, ?_⟩
  · rw [RemoveTask_some m _ hidx]
    show m.TaskList.Tasks.take pre.length ++ m.TaskList.Tasks.drop (pre.length + 1) = _
    rw [hts, take_drop_append]
  · rw [RemoveTask_some m _ hidx]
  · rw [RemoveTask_some m _ hidx]

theorem RemoveTask_deletes_first_match_witness :
    (∃ t ∈ (scenario " 2\r\n".toList none).TaskList.Tasks, t.Id = 2) ∧
    TrimSpace (ReadString (scenario " 2\r\n".toList none).Reader).1 = Sprintf_d 2 ∧
    ∃ pre t post, (scenario " 2\r\n".toList none).TaskList.Tasks = pre ++ t :: post ∧ t.Id = 2 ∧
      (∀ u ∈ pre, u.Id ≠ 2) ∧
      (RemoveTask (scenario " 2\r\n".toList none)).TaskList.Tasks = pre ++ post ∧
      (RemoveTask (scenario " 2\r\n".toList none)).TaskList.NextId =
        (scenario " 2\r\n".toList none).TaskList.NextId ∧
      (RemoveTask (scenario " 2\r\n".toList none)).Writer =
        (scenario " 2\r\n".toList none).Writer ++ [Out.text promptId] :=
  have h1 : ∃ t ∈ (scenario " 2\r\n".toList none).TaskList.Tasks, t.Id = 2 :=
    ⟨_, List.mem_cons_of_mem _ (List.mem_cons_self _ _), rfl⟩
  have h2 : TrimSpace (ReadString (scenario " 2\r\n".toList none).Reader).1 = Sprintf_d 2 := by
    decide
  ⟨h1, h2, RemoveTask_deletes_first_match (scenario " 2\r\n".toList none) 2 h1 h2⟩

/-- C3. `UpdateTask` on an id some task carries: with the tasks split as `pre ++ t :: post`,
`t` the first task carrying the id `k` typed at the first prompt, and `d` the new description
read at the second prompt (the line typed there, trimmed), the tasks afterwards are
`pre ++ t' :: post` where `t'` is `t` with the description `d` (same id, `Completed` and date);
`NextId` is unchanged and only the two prompts are written. -/
theorem UpdateTask_replaces_description (m : TaskListManager) (k : Int) (d : Str)
    (hmem : ∃ t ∈ m.TaskList.Tasks, t.Id = k)
    (hin : TrimSpace (ReadString m.Reader).1 = Sprintf_d k)
    (hd : TrimSpace (ReadString (ReadString m.Reader).2).1 = d) :
    ∃ pre t post, m.TaskList.Tasks = pre ++ t :: post ∧ t.Id = k ∧ (∀ u ∈ pre, u.Id ≠ k) ∧
      (UpdateTask m).TaskList.Tasks = pre ++ { t with Description := d } :: post ∧
      (UpdateTask m).TaskList.NextId = m.TaskList.NextId ∧
      (UpdateTask m).Writer = m.Writer ++ [Out.text promptId, Out.text promptDescription] := by
  obtain ⟨pre, t, post, hts, htk, hpre, hidx⟩ := matchIndex_of_mem k _ hmem
  rw [← hin] at hidx
  subst hd
  refine ⟨pre, t, post, hts, htk, hpre, ?_, ?_, ?_⟩
  · rw [UpdateTask_some m _ hidx]
    show modifyAt _ m.TaskList.Tasks pre.length = _
    rw [hts, modifyAt_append]
  · rw [UpdateTask_some m _ hidx]
  · rw [UpdateTask_some m _ hidx]

theorem UpdateTask_replaces_description_witness :
    (∃ t ∈ (scenario "1\nBuy oat milk\n".toList none).TaskList.Tasks, t.Id = 1) ∧
    TrimSpace (ReadString (scenario "1\nBuy oat milk\n".toList none).Reader).1 = Sprintf_d 1 ∧
    TrimSpace (ReadString (ReadString (scenario "1\nBuy oat milk\n".toList none).Reader).2).1 =
      "Buy oat milk".toList ∧
    ∃ pre t post,
      (scenario "1\nBuy oat milk\n".toList none).TaskList.Tasks = pre ++ t :: post ∧ t.Id = 1 ∧
      (∀ u ∈ pre, u.Id ≠ 1) ∧
      (UpdateTask (scenario "1\nBuy oat milk\n".toList none)).TaskList.Tasks =
        pre ++ { t with Description := "Buy oat milk".toList } :: post ∧
      (UpdateTask (scenario "1\nBuy oat milk\n".toList none)).TaskList.NextId =
        (scenario "1\nBuy oat milk\n".toList none).TaskList.NextId ∧
      (UpdateTask (scenario "1\nBuy oat milk\n".toList none)).Writer =
        (scenario "1\nBuy oat milk\n".toList none).Writer ++
          [Out.text promptId, Out.text promptDescription] :=
  have h1 : ∃ t ∈ (scenario "1\nBuy oat milk\n".toList none).TaskList.Tasks, t.Id = 1 :=
    ⟨_, List.mem_cons_self _ _, rfl⟩
  have h2 : TrimSpace (ReadString (scenario "1\nBuy oat milk\n".toList none).Reader).1 =
      Sprintf_d 1 := by
    decide
  have h3 : TrimSpace (ReadString (ReadString
      (scenario "1\nBuy oat milk\n".toList none).Reader).2).1 = "Buy oat milk".toList := by
    decide
  ⟨h1, h2, h3, UpdateTask_replaces_description (scenario "1\nBuy oat milk\n".toList none) 1
    "Buy oat milk".toList h1 h2 h3⟩

/-! ## C4: the command `add` -/

/-- C4. The command `add` is answered like any unknown word: after the prompt, `main` writes
`Invalid command` and returns to the loop with the task list, the input and the file as they
were; no task is appended and `NextId` does not move. -/
theorem main_step_add_is_invalid (m : TaskListManager) :
    main_step m "add".toList =
      Outcome.returned { m with Writer := m.Writer ++ [Out.text promptCommand, Out.text msgInvalid] } := by
  have h1 : "add".toList ≠ "list".toList := by decide
  have h2 : "add".toList ≠ "do".toList := by decide
  have h3 : "add".toList ≠ "rm".toList := by decide
  have h4 : "add".toList ≠ "update".toList := by decide
  have h5 : "add".toList ≠ "help".toList := by decide
  have h6 : "add".toList ≠ "exit".toList := by decide
  simp only [main_step, if_neg h1, if_neg h2, if_neg h3, if_neg h4, if_neg h5, if_neg h6, println]
  simp

/-! ## C5, C6: `ReadTasks` on a saved file and on lines without four fields -/

/-- C5. Loading what was just saved: `SaveTasks` on the two tasks of the scenario writes two
lines that end in `2024-01-15 10:30:00` and `2024-01-15 10:31:07`; `ReadTasks` on that file
stops at the first line, because `time.Parse("", ...)` rejects the non-empty date, prints that
error, and leaves an empty task list with `NextId` 1 in place of the two tasks and `NextId` 3. -/
theorem ReadTasks_after_SaveTasks_loses_tasks :
    (SaveTasks (scenario [] none)).File =
      some "1|Buy milk|false|2024-01-15 10:30:00\n2|Pay rent|false|2024-01-15 10:31:07\n".toList ∧
    ReadTasks (SaveTasks (scenario [] none)) =
      Outcome.returned
        { SaveTasks (scenario [] none) with
          TaskList := { Tasks := [], NextId := 1 }
          Writer := [Out.error (GoError.timeParse "2024-01-15 10:30:00".toList)] } := by
  decide

/-- C6. Lines that do not have four fields: on a file whose second line has three fields
`ReadTasks` stops the process with `index out of range [3] with length 3` (nothing is reported,
no store results); on a file whose line has five fields, the fourth empty, `ReadTasks` returns
without printing anything and has stored the task built from the first four. -/
theorem ReadTasks_wrong_field_count :
    ReadTasks (withFile "1|Buy milk|false|\n2|Pay rent|true\n".toList) = Outcome.panicked 3 3 ∧
    ReadTasks (withFile "1|Buy milk|false||2024-01-15 10:30:00\n".toList) =
      Outcome.returned
        { withFile "1|Buy milk|false||2024-01-15 10:30:00\n".toList with
          TaskList :=
            { Tasks := [{ Id := 1, Description := "Buy milk".toList, Completed := false, Date := yearZero }]
              NextId := 2 } } := by
  decide

/-! ## C7: `NextId` and the ids of the tasks -/

/-- C7 as stated fails: after `ReadTasks` on a file with the single line `5|Pay rent|true|`
the store holds a task with id 5 while `NextId` is 2. -/
theorem NextId_not_above_loaded_id :
    ReadTasks (withFile "5|Pay rent|true|\n".toList) = Outcome.returned loadedFive ∧
    Reachable smallFile loadedFive ∧
    ¬ (∀ t ∈ loadedFive.TaskList.Tasks, t.Id < loadedFive.TaskList.NextId) := by
  refine ⟨by decide, ?_, by decide⟩
  exact Reachable.load (some "5|Pay rent|true|\n".toList)
    (Reachable.init "tasks.json".toList [] none)
    (by intro c hc; cases hc; decide) (by decide)

/-- C7, as the code has it. In the manager `NewTaskListManager` builds and in every manager
reached from it by `DoTask`, `UpdateTask`, `RemoveTask`, `SaveTasks`, `ListTasks` and
`ReadTasks`, where every file loaded has fewer than `2^63 - 1` characters and each of its
lines carries an id that is at most the value of `NextId` when the line is read, `NextId` is
strictly greater than the id of every task in `Tasks`. -/
theorem NextId_above_every_id (m : TaskListManager) (h : Reachable idsFollowCounter m) :
    ∀ t ∈ m.TaskList.Tasks, t.Id < m.TaskList.NextId := by
  induction h with
  | init fileName stdin file => intro t ht; simp [NewTaskListManager] at ht
  | @complete m stdin _ ih =>
    intro u hu
    cases hm : matchIndex (TrimSpace (ReadString stdin).1) m.TaskList.Tasks with
    | none =>
      rw [DoTask_none { m with Reader := stdin } hm] at hu ⊢
      exact ih u hu
    | some i =>
      rw [DoTask_some { m with Reader := stdin } i hm] at hu ⊢
      rcases mem_modifyAt _ _ _ _ hu with h | ⟨t, ht, rfl⟩
      · exact ih u h
      · exact ih t ht
  | @update m stdin _ ih =>
    intro u hu
    cases hm : matchIndex (TrimSpace (ReadString stdin).1) m.TaskList.Tasks with
    | none =>
      rw [UpdateTask_none { m with Reader := stdin } hm] at hu ⊢
      exact ih u hu
    | some i =>
      rw [UpdateTask_some { m with Reader := stdin } i hm] at hu ⊢
      rcases mem_modifyAt _ _ _ _ hu with h | ⟨t, ht, rfl⟩
      · exact ih u h
      · exact ih t ht
  | @remove m stdin _ ih =>
    intro u hu
    cases hm : matchIndex (TrimSpace (ReadString stdin).1) m.TaskList.Tasks with
    | none =>
      rw [RemoveTask_none { m with Reader := stdin } hm] at hu ⊢
      exact ih u hu
    | some i =>
      rw [RemoveTask_some { m with Reader := stdin } i hm] at hu ⊢
      rcases List.mem_append.mp hu with h | h
      · exact ih u (List.mem_of_mem_take h)
      · exact ih u (List.mem_of_mem_drop h)
  | save _ ih => exact ih
  | list _ ih => rw [ListTasks_TaskList]; exact ih
  | @load m m' file _ hok hread ih =>
    cases file with
    | none =>
      simp only [ReadTasks, Outcome.returned.injEq] at hread
      subst hread
      exact ih
    | some c =>
      obtain ⟨hsmall, hids⟩ := hok c rfl
      simp only [ReadTasks] at hread
      refine readLoop_ids _ _ m' hread (by simp) ?_ hids (by intro t ht; simp at ht)
      have := scanLines_length_le c
      unfold smallFile at hsmall
      simp only [List.length_nil, zero_add]
      omega

theorem NextId_above_every_id_witness :
    Reachable idsFollowCounter (RemoveTask { loadedPair with Reader := "1\n".toList }) ∧
    ∀ t ∈ (RemoveTask { loadedPair with Reader := "1\n".toList }).TaskList.Tasks,
      t.Id < (RemoveTask { loadedPair with Reader := "1\n".toList }).TaskList.NextId :=
  have h : Reachable idsFollowCounter (RemoveTask { loadedPair with Reader := "1\n".toList }) :=
    Reachable.remove "1\n".toList
      (Reachable.load (some "1|Buy milk|false|\n2|Pay rent|false|\n".toList)
        (Reachable.init "tasks.json".toList [] none)
        (by intro c hc; cases hc; decide) (by decide))
  ⟨h, NextId_above_every_id (RemoveTask { loadedPair with Reader := "1\n".toList }) h⟩

/-! ## C8: an id that is absent -/

/-- C8. Not found: when the line typed at the prompt, trimmed, is the printed id of no task,
each of `DoTask`, `RemoveTask` and `UpdateTask` leaves the task list (tasks, order, `NextId`)
as it was and writes the prompt followed by the not-found message; and whenever one of them
writes the not-found message, no task matched. -/
theorem not_found_iff_no_match (m : TaskListManager) :
    ((∀ t ∈ m.TaskList.Tasks, Sprintf_d t.Id ≠ TrimSpace (ReadString m.Reader).1) →
      ((DoTask m).TaskList = m.TaskList ∧
        written m (DoTask m) = [Out.text promptId, Out.text msgNotFound]) ∧
      ((RemoveTask m).TaskList = m.TaskList ∧
        written m (RemoveTask m) = [Out.text promptId, Out.text msgNotFound]) ∧
      ((UpdateTask m).TaskList = m.TaskList ∧
        written m (UpdateTask m) = [Out.text promptId, Out.text msgNotFound])) ∧
    (Out.text msgNotFound ∈ written m (DoTask m) →
      ∀ t ∈ m.TaskList.Tasks, Sprintf_d t.Id ≠ TrimSpace (ReadString m.Reader).1) ∧
    (Out.text msgNotFound ∈ written m (RemoveTask m) →
      ∀ t ∈ m.TaskList.Tasks, Sprintf_d t.Id ≠ TrimSpace (ReadString m.Reader).1) ∧
    (Out.text msgNotFound ∈ written m (UpdateTask m) →
      ∀ t ∈ m.TaskList.Tasks, Sprintf_d t.Id ≠ TrimSpace (ReadString m.Reader).1) := by
  have hne1 : Out.text msgNotFound ≠ Out.text promptId := by decide
  have hne2 : Out.text msgNotFound ≠ Out.text promptDescription := by decide
  refine ⟨?_, ?_, ?_, ?_⟩
  · intro hno
    have hnone := (matchIndex_none _ _).mpr hno
    rw [DoTask_none m hnone, RemoveTask_none m hnone, UpdateTask_none m hnone]
    simp [written]
  · intro hw
    cases hm : matchIndex (TrimSpace (ReadString m.Reader).1) m.TaskList.Tasks with
    | none => exact (matchIndex_none _ _).mp hm
    | some i =>
      rw [DoTask_some m i hm] at hw
      simp [written, hne1] at hw
  · intro hw
    cases hm : matchIndex (TrimSpace (ReadString m.Reader).1) m.TaskList.Tasks with
    | none => exact (matchIndex_none _ _).mp hm
    | some i =>
      rw [RemoveTask_some m i hm] at hw
      simp [written, hne1] at hw
  · intro hw
    cases hm : matchIndex (TrimSpace (ReadString m.Reader).1) m.TaskList.Tasks with
    | none => exact (matchIndex_none _ _).mp hm
    | some i =>
      rw [UpdateTask_some m i hm] at hw
      simp [written, hne1, hne2] at hw

theorem not_found_iff_no_match_witness :
    (∀ t ∈ (scenario "7\n".toList none).TaskList.Tasks,
      Sprintf_d t.Id ≠ TrimSpace (ReadString (scenario "7\n".toList none).Reader).1) ∧
    ((DoTask (scenario "7\n".toList none)).TaskList = (scenario "7\n".toList none).TaskList ∧
      written (scenario "7\n".toList none) (DoTask (scenario "7\n".toList none)) =
        [Out.text promptId, Out.text msgNotFound]) ∧
    ((RemoveTask (scenario "7\n".toList none)).TaskList = (scenario "7\n".toList none).TaskList ∧
      written (scenario "7\n".toList none) (RemoveTask (scenario "7\n".toList none)) =
        [Out.text promptId, Out.text msgNotFound]) ∧
    ((UpdateTask (scenario "7\n".toList none)).TaskList = (scenario "7\n".toList none).TaskList ∧
      written (scenario "7\n".toList none) (UpdateTask (scenario "7\n".toList none)) =
        [Out.text promptId, Out.text msgNotFound]) :=
  have h : ∀ t ∈ (scenario "7\n".toList none).TaskList.Tasks,
      Sprintf_d t.Id ≠ TrimSpace (ReadString (scenario "7\n".toList none).Reader).1 := by
    decide
  ⟨h, (not_found_iff_no_match (scenario "7\n".toList none)).1 h⟩

/-! ## C9: looking up an id that was just removed -/

/-- C9 as stated fails on a store obtained by load: `ReadTasks` accepts a file whose two lines
both carry the id 1; `RemoveTask` on `1` then removes the first of the two tasks (no not-found
message), and `DoTask` and `UpdateTask` on `1` find the second one: they write no not-found
message, and complete it, respectively give it the new description. -/
theorem lookup_after_remove_finds_twin :
    ReadTasks (withFile "1|Buy milk|false|\n1|Pay rent|false|\n".toList) =
      Outcome.returned loadedTwins ∧
    written { loadedTwins with Reader := "1\n".toList }
        (RemoveTask { loadedTwins with Reader := "1\n".toList }) = [Out.text promptId] ∧
    (RemoveTask { loadedTwins with Reader := "1\n".toList }).TaskList.Tasks =
      [{ Id := 1, Description := "Pay rent".toList, Completed := false, Date := yearZero }] ∧
    written { RemoveTask { loadedTwins with Reader := "1\n".toList } with Reader := "1\n".toList }
        (DoTask { RemoveTask { loadedTwins with Reader := "1\n".toList } with
          Reader := "1\n".toList }) = [Out.text promptId] ∧
    (DoTask { RemoveTask { loadedTwins with Reader := "1\n".toList } with
        Reader := "1\n".toList }).TaskList.Tasks =
      [{ Id := 1, Description := "Pay rent".toList, Completed := true, Date := yearZero }] ∧
    written { RemoveTask { loadedTwins with Reader := "1\n".toList } with Reader := "1\nx\n".toList }
        (UpdateTask { RemoveTask { loadedTwins with Reader := "1\n".toList } with
          Reader := "1\nx\n".toList }) = [Out.text promptId, Out.text promptDescription] ∧
    (UpdateTask { RemoveTask { loadedTwins with Reader := "1\n".toList } with
        Reader := "1\nx\n".toList }).TaskList.Tasks =
      [{ Id := 1, Description := "x".toList, Completed := false, Date := yearZero }] := by
  decide

/-- C9, as the code has it. In a store where no two tasks carry the same id, once `RemoveTask`
has removed a task (it wrote no not-found message), `DoTask` and `UpdateTask` on the same typed
id write the not-found message and leave the task list as `RemoveTask` left it. -/
theorem lookup_after_remove_not_found (m : TaskListManager) (stdin : Str)
    (hnodup : (m.TaskList.Tasks.map Task.Id).Nodup)
    (hsucc : Out.text msgNotFound ∉ written m (RemoveTask m))
    (hsame : TrimSpace (ReadString stdin).1 = TrimSpace (ReadString m.Reader).1) :
    written { RemoveTask m with Reader := stdin } (DoTask { RemoveTask m with Reader := stdin }) =
        [Out.text promptId, Out.text msgNotFound] ∧
      (DoTask { RemoveTask m with Reader := stdin }).TaskList = (RemoveTask m).TaskList ∧
    written { RemoveTask m with Reader := stdin } (UpdateTask { RemoveTask m with Reader := stdin }) =
        [Out.text promptId, Out.text msgNotFound] ∧
      (UpdateTask { RemoveTask m with Reader := stdin }).TaskList = (RemoveTask m).TaskList := by
  cases hm : matchIndex (TrimSpace (ReadString m.Reader).1) m.TaskList.Tasks with
  | none =>
    rw [RemoveTask_none m hm] at hsucc
    exact absurd (by simp [written]) hsucc
  | some i =>
    obtain ⟨pre, t, post, hts, hlen, ht, hpre⟩ := matchIndex_some _ _ i hm
    have htasks : (RemoveTask m).TaskList.Tasks = pre ++ post := by
      rw [RemoveTask_some m i hm]
      show m.TaskList.Tasks.take i ++ m.TaskList.Tasks.drop (i + 1) = _
      rw [hts, ← hlen, take_drop_append]
    rw [hts] at hnodup
    simp only [List.map_append, List.map_cons, List.nodup_append, List.nodup_cons,
      List.mem_map, not_exists, not_and] at hnodup
    have hpost : ∀ u ∈ post, u.Id ≠ t.Id := fun u hu => hnodup.2.1.1 u hu
    have hnone : matchIndex (TrimSpace (ReadString stdin).1) (RemoveTask m).TaskList.Tasks = none := by
      rw [matchIndex_none, htasks, hsame]
      intro u hu
      rcases List.mem_append.mp hu with hu | hu
      · exact hpre u hu
      · intro hcontra
        exact hpost u hu (Sprintf_d_injective _ _ (hcontra.trans ht.symm))
    have hd := DoTask_none { RemoveTask m with Reader := stdin } hnone
    have hu := UpdateTask_none { RemoveTask m with Reader := stdin } hnone
    rw [hd, hu]
    simp [written]

theorem lookup_after_remove_not_found_witness :
    ((scenario "2\n".toList none).TaskList.Tasks.map Task.Id).Nodup ∧
    Out.text msgNotFound ∉
      written (scenario "2\n".toList none) (RemoveTask (scenario "2\n".toList none)) ∧
    TrimSpace (ReadString " 2 \n".toList).1 =
      TrimSpace (ReadString (scenario "2\n".toList none).Reader).1 ∧
    (written { RemoveTask (scenario "2\n".toList none) with Reader := " 2 \n".toList }
        (DoTask { RemoveTask (scenario "2\n".toList none) with Reader := " 2 \n".toList }) =
        [Out.text promptId, Out.text msgNotFound] ∧
      (DoTask { RemoveTask (scenario "2\n".toList none) with Reader := " 2 \n".toList }).TaskList =
        (RemoveTask (scenario "2\n".toList none)).TaskList ∧
    written { RemoveTask (scenario "2\n".toList none) with Reader := " 2 \n".toList }
        (UpdateTask { RemoveTask (scenario "2\n".toList none) with Reader := " 2 \n".toList }) =
        [Out.text promptId, Out.text msgNotFound] ∧
      (UpdateTask { RemoveTask (scenario "2\n".toList none) with Reader := " 2 \n".toList }).TaskList =
        (RemoveTask (scenario "2\n".toList none)).TaskList) :=
  have h1 : ((scenario "2\n".toList none).TaskList.Tasks.map Task.Id).Nodup := by decide
  have h2 : Out.text msgNotFound ∉
      written (scenario "2\n".toList none) (RemoveTask (scenario "2\n".toList none)) := by decide
  have h3 : TrimSpace (ReadString " 2 \n".toList).1 =
      TrimSpace (ReadString (scenario "2\n".toList none).Reader).1 := by decide
  ⟨h1, h2, h3, lookup_after_remove_not_found (scenario "2\n".toList none) " 2 \n".toList h1 h2 h3⟩

/-! ## C10: the format of the saved file -/

/-- C10 as stated fails: `UpdateTask` stores a description as typed, so after a load of the
line `1|Buy milk|false|` and an update of task 1 to `milk|eggs`, `SaveTasks` writes the line
`1|milk|eggs|false|0000-01-01 00:00:00`, which splits on `|` into five fields. -/
theorem SaveTasks_line_with_five_fields :
    Reachable smallFile (UpdateTask { loadedOne with Reader := "1\nmilk|eggs\n".toList }) ∧
    (SaveTasks (UpdateTask { loadedOne with Reader := "1\nmilk|eggs\n".toList })).File =
      some "1|milk|eggs|false|0000-01-01 00:00:00\n".toList ∧
    Split "1|milk|eggs|false|0000-01-01 00:00:00".toList '|' =
      ["1".toList, "milk".toList, "eggs".toList, "false".toList, "0000-01-01 00:00:00".toList] := by
  refine ⟨?_, by decide, by decide⟩
  exact Reachable.update "1\nmilk|eggs\n".toList
    (Reachable.load (some "1|Buy milk|false|\n".toList)
      (Reachable.init "tasks.json".toList [] none)
      (by intro c hc; cases hc; decide) (by decide))

/-- C10, as the code has it. For every reachable manager in which no description contains
`|`, the text `SaveTasks` writes is, cut at the newlines, the line of each task in the order
of `Tasks` (and nothing after the last newline); the line of a task splits on `|` into exactly
four fields: its id in decimal, its description, `true` or `false`, and its date, which is
written `YYYY-MM-DD HH:MM:SS`. -/
theorem SaveTasks_format (fileOk : Str → Prop) (m : TaskListManager) (h : Reachable fileOk m)
    (hpipe : ∀ t ∈ m.TaskList.Tasks, '|' ∉ t.Description) :
    (SaveTasks m).File = some (saveText m.TaskList.Tasks) ∧
    Split (saveText m.TaskList.Tasks) '\n' = m.TaskList.Tasks.map saveLine ++ [[]] ∧
    ∀ t ∈ m.TaskList.Tasks,
      Split (saveLine t) '|' =
        [Sprintf_d t.Id, t.Description,
          if t.Completed = true then "true".toList else "false".toList, Format t.Date] ∧
      isTimestamp (Format t.Date) = true := by
  have hinv := Reachable_tasks fileOk m h
  refine ⟨rfl, saveText_lines _ (fun t ht => (hinv t ht).2), ?_⟩
  intro t ht
  refine ⟨?_, ?_⟩
  · rw [saveLine_Split t (hpipe t ht)]
    cases t.Completed <;> rfl
  · rw [(hinv t ht).1]
    decide

theorem SaveTasks_format_witness :
    Reachable smallFile loadedTwins ∧
    (∀ t ∈ loadedTwins.TaskList.Tasks, '|' ∉ t.Description) ∧
    ((SaveTasks loadedTwins).File = some (saveText loadedTwins.TaskList.Tasks) ∧
    Split (saveText loadedTwins.TaskList.Tasks) '\n' =
      loadedTwins.TaskList.Tasks.map saveLine ++ [[]] ∧
    ∀ t ∈ loadedTwins.TaskList.Tasks,
      Split (saveLine t) '|' =
        [Sprintf_d t.Id, t.Description,
          if t.Completed = true then "true".toList else "false".toList, Format t.Date] ∧
      isTimestamp (Format t.Date) = true) :=
  have h : Reachable smallFile loadedTwins :=
    Reachable.load (some "1|Buy milk|false|\n1|Pay rent|false|\n".toList)
      (Reachable.init "tasks.json".toList [] none)
      (by intro c hc; cases hc; decide) (by decide)
  have hpipe : ∀ t ∈ loadedTwins.TaskList.Tasks, '|' ∉ t.Description := by decide
  ⟨h, hpipe, SaveTasks_format smallFile loadedTwins h hpipe⟩

end TaskManager
